import Mathlib

/-!
Shallow embedding of the core data pipeline of the icd-dashboard repository
(`src/utils.ts`, `src/types.ts`): cell normalization, accreditation
normalization, free-text search, distinct-value extraction, header
validation, sheet ingestion, campus restriction, filtering, KPI
aggregation and CSV export.

JavaScript strings are modelled as Lean `String` (a list of characters);
the JS string primitives used by the source (`trim`, `toLowerCase`,
`toUpperCase`, `includes`, `Array.prototype.join`, `replaceAll`) are given
explicit executable models below.  `toLowerCase`/`toUpperCase` are modelled
character-wise with `Char.toLower`/`Char.toUpper`.
-/

/-- Model of JS `String.prototype.trim`: drop whitespace from both ends. -/
def jsTrim (s : String) : String :=
  ⟨(((s.data.dropWhile Char.isWhitespace).reverse.dropWhile Char.isWhitespace).reverse)⟩

/-- Model of JS `String.prototype.toLowerCase` (character-wise). -/
def jsToLower (s : String) : String := ⟨s.data.map Char.toLower⟩

/-- Model of JS `String.prototype.toUpperCase` (character-wise). -/
def jsToUpper (s : String) : String := ⟨s.data.map Char.toUpper⟩

/-- Executable check that the first character list is an initial segment of
the second. -/
def isPrefixChars : List Char → List Char → Bool
  | [], _ => true
  | _ :: _, [] => false
  | a :: as, b :: bs => a = b && isPrefixChars as bs

/-- Model of JS `String.prototype.includes`: substring containment. -/
def isSubstr (pat : List Char) : List Char → Bool
  | [] => isPrefixChars pat []
  | c :: cs => isPrefixChars pat (c :: cs) || isSubstr pat cs

/-- Model of JS `Array.prototype.join(sep)`. -/
def joinSep (sep : String) : List String → String
  | [] => ""
  | [a] => a
  | a :: rest => a ++ sep ++ joinSep sep rest

/-- Model of JS `replaceAll('"', '""')` on the character level: every double
quote is doubled. -/
def dupQuotes : List Char → List Char
  | [] => []
  | c :: cs => if c = '"' then '"' :: '"' :: dupQuotes cs else c :: dupQuotes cs

/-- Lexicographic character-list comparison (`≤`), used to model
`localeCompare` results. -/
def chLe : List Char → List Char → Bool
  | [], _ => true
  | _ :: _, [] => false
  | a :: as, b :: bs => if a = b then chLe as bs else decide (a < b)

/-- Model of the comparator `(a, b) => a.localeCompare(b, undefined,
{ sensitivity: base })` being `≤ 0`: case-insensitive lexicographic
comparison of the two strings. -/
def strLeBase (a b : String) : Prop :=
  chLe (jsToLower a).data (jsToLower b).data = true

instance : DecidableRel strLeBase := fun a b =>
  inferInstanceAs (Decidable (chLe (jsToLower a).data (jsToLower b).data = true))

/-- Model of JS `Array.from(new Set(l))`: deduplicate keeping the first
occurrence of each value, preserving insertion order. -/
def jsSetDedup : List String → List String
  | [] => []
  | x :: xs => x :: (jsSetDedup xs).filter (fun y => y != x)

/-! ## Data model (`src/types.ts`) -/

/-- `ProgramRow` from `src/types.ts`: one academic program record.  Field
names are the camel-cased forms of the TS keys (`COPC Status` ↦
`copcStatus`, `COPC No.` ↦ `copcNo`, `CMO / PSG` ↦ `cmoPsg`,
`BOR Resolution` ↦ `borResolution`, `Contents Notation` ↦
`contentsNotation`). -/
structure ProgramRow where
  campus : String
  college : String
  program : String
  major : String
  level : String
  copcStatus : String
  copcNo : String
  contentsNotation : String
  accreditation : String
  cmoPsg : String
  borResolution : String
  dean : String
deriving DecidableEq, Repr

/-- A `ProgramRow` together with the derived `AccreditationNormalized`
field (the element type of `rowsWithDerived` in `src/utils.ts`). -/
structure DerivedRow extends ProgramRow where
  accreditationNormalized : String
deriving DecidableEq, Repr

/-- `FilterState` from `src/types.ts`. -/
structure FilterState where
  colleges : List String
  levels : List String
  copcStatuses : List String
  accreditations : List String
  deans : List String
  search : String
  hideBlankMajor : Bool
deriving DecidableEq, Repr

/-- The KPI summary object computed by `kpis` in `src/utils.ts`. -/
structure Kpis where
  total : Nat
  issued : Nat
  underApp : Nat
  phaseOut : Nat
  colleges : Nat
deriving DecidableEq, Repr

/-- A spreadsheet cell value as produced by `sheet_to_json`: the
`unknown` union consumed by `normalizeCell`.  `null` also stands for
`undefined`/absent.  `num` models the (integral) numeric cells; fractional
floats are outside the scope of this embedding. -/
inductive CellVal where
  | null
  | str (s : String)
  | num (n : Int)
  | bool (b : Bool)
deriving DecidableEq, Repr

/-! ## The embedded source functions (`src/utils.ts`) -/

/-- `EXPECTED_HEADERS` (utils.ts lines 3-16). -/
def EXPECTED_HEADERS : List String :=
  ["Campus", "College", "Program", "Major", "Level", "COPC Status",
   "COPC No.", "Contents Notation", "Accreditation", "CMO / PSG",
   "BOR Resolution", "Dean"]

/-- `normalizeCell` (utils.ts lines 18-24). -/
def normalizeCell : CellVal → String
  | .null => ""
  | .str s => jsTrim s
  | .num n => toString n
  | .bool b => if b then "TRUE" else "FALSE"

/-- `normalizeAccreditation` (utils.ts lines 26-36).  The local `v` and
`upper` of the source are inlined. -/
def normalizeAccreditation (raw : String) : String :=
  if jsTrim raw = "" then "Unknown"
  else if isSubstr "LEVEL IV".data (jsToUpper (jsTrim raw)).data then "Level IV"
  else if isSubstr "LEVEL III".data (jsToUpper (jsTrim raw)).data then "Level III"
  else if isSubstr "LEVEL II".data (jsToUpper (jsTrim raw)).data then "Level II"
  else if isSubstr "LEVEL I".data (jsToUpper (jsTrim raw)).data then "Level I"
  else if isSubstr "CANDIDATE".data (jsToUpper (jsTrim raw)).data then "Candidate"
  else jsTrim raw

/-- The field list built by `includesSearch` (utils.ts lines 41-53), in
source order. -/
def searchFields (r : ProgramRow) : List String :=
  [r.program, r.major, r.copcNo, r.cmoPsg, r.borResolution,
   r.contentsNotation, r.college, r.level, r.copcStatus,
   r.accreditation, r.dean]

/-- The lowercased haystack of `includesSearch` (utils.ts lines 41-56):
empty fields are dropped (`filter(Boolean)`), the rest joined with a pipe
separator and lowercased. -/
def searchHaystack (r : ProgramRow) : String :=
  jsToLower (joinSep " | " ((searchFields r).filter (fun s => s != "")))

/-- `includesSearch` (utils.ts lines 38-58). -/
def includesSearch (r : ProgramRow) (q : String) : Bool :=
  if jsToLower (jsTrim q) = "" then true
  else isSubstr (jsToLower (jsTrim q)).data (searchHaystack r).data

/-- `uniqSorted` (utils.ts lines 60-64): trim, drop empties, deduplicate
(JS `Set`, first occurrence wins), then sort with the locale-aware
case-insensitive comparator.  JS `Array.prototype.sort` is stable, so a
stable insertion sort is used. -/
def uniqSorted (values : List String) : List String :=
  List.insertionSort strLeBase
    (jsSetDedup ((values.map jsTrim).filter (fun v => v != "")))

/-- `validateHeaders` (utils.ts lines 89-95). -/
def validateHeaders (headers : List String) : Option String :=
  let trimmed := headers.map jsTrim
  let missing := EXPECTED_HEADERS.filter (fun h => !(trimmed.contains h))
  if missing = [] then none
  else some ("Missing expected columns: " ++ joinSep ", " missing)

/-- Field access `r[key]` on a `sheet_to_json` record (a key-value row);
an absent key behaves as `undefined` (here `CellVal.null`). -/
def getCell (row : List (String × CellVal)) (k : String) : CellVal :=
  match row.lookup k with
  | some v => v
  | none => .null

/-- The per-row mapping of `parseXlsxFirstSheet` (utils.ts lines 123-136). -/
def rowToProgram (row : List (String × CellVal)) : ProgramRow :=
  { campus := normalizeCell (getCell row "Campus")
    college := normalizeCell (getCell row "College")
    program := normalizeCell (getCell row "Program")
    major := normalizeCell (getCell row "Major")
    level := normalizeCell (getCell row "Level")
    copcStatus := normalizeCell (getCell row "COPC Status")
    copcNo := normalizeCell (getCell row "COPC No.")
    contentsNotation := normalizeCell (getCell row "Contents Notation")
    accreditation := normalizeCell (getCell row "Accreditation")
    cmoPsg := normalizeCell (getCell row "CMO / PSG")
    borResolution := normalizeCell (getCell row "BOR Resolution")
    dean := normalizeCell (getCell row "Dean") }

/-- The pure core of `parseXlsxFirstSheet` (utils.ts lines 109-138), after
`sheet_to_json` has produced the key-value rows: an empty sheet resolves
to `[]` before header validation; otherwise the keys of the first row are
validated and every row is mapped through the normalizer. -/
def parseRows (rowsArr : List (List (String × CellVal))) :
    Except String (List ProgramRow) :=
  match rowsArr with
  | [] => .ok []
  | first :: _ =>
    match validateHeaders (first.map Prod.fst) with
    | some err => .error err
    | none => .ok (rowsArr.map rowToProgram)

/-- `matchesMulti` (utils.ts lines 206-209). -/
def matchesMulti (selected : List String) (value : String) : Bool :=
  if selected.isEmpty then true else selected.contains value

/-- `DEFAULT_FILTERS` (utils.ts lines 79-87). -/
def DEFAULT_FILTERS : FilterState :=
  { colleges := [], levels := [], copcStatuses := [], accreditations := []
    deans := [], search := "", hideBlankMajor := false }

/-- The per-record predicate of `filteredRows` (utils.ts lines 226-235). -/
def rowPasses (f : FilterState) (r : DerivedRow) : Bool :=
  matchesMulti f.colleges r.college &&
  matchesMulti f.levels r.level &&
  matchesMulti f.copcStatuses r.copcStatus &&
  matchesMulti f.accreditations r.accreditationNormalized &&
  matchesMulti f.deans r.dean &&
  !(f.hideBlankMajor && jsTrim r.major == "") &&
  includesSearch r.toProgramRow f.search

/-- `filteredRows` (utils.ts lines 225-236): the filter engine applied to
the derived rows. -/
def filteredRows (rows : List DerivedRow) (f : FilterState) : List DerivedRow :=
  rows.filter (rowPasses f)

/-- `rowsWithDerived` (utils.ts lines 218-223). -/
def rowsWithDerived (rows : List ProgramRow) : List DerivedRow :=
  rows.map (fun r =>
    { toProgramRow := r
      accreditationNormalized := normalizeAccreditation r.accreditation })

/-- `kpis` (utils.ts lines 247-254). -/
def kpis (rows : List DerivedRow) : Kpis :=
  { total := rows.length
    issued := (rows.filter (fun r => jsToLower r.copcStatus == "issued")).length
    underApp :=
      (rows.filter (fun r => jsToLower r.copcStatus == "under application")).length
    phaseOut :=
      (rows.filter (fun r =>
        isSubstr "phase-out".data (jsToLower r.copcStatus).data)).length
    colleges :=
      (jsSetDedup ((rows.map (fun r => r.college)).filter (fun s => s != ""))).length }

/-- The campus restriction of `onFileSelected` (utils.ts lines 459-462):
the retained target-campus rows and the removed count. -/
def restrictCampus (raw : List ProgramRow) : List ProgramRow × Nat :=
  let bambang := raw.filter (fun r => jsToLower (jsTrim r.campus) == "bambang")
  (bambang, raw.length - bambang.length)

/-- The CSV field escaping of `downloadFilteredCsv` (utils.ts line 481). -/
def escapeField (v : String) : String :=
  if v.data.contains ',' || v.data.contains '"' || v.data.contains '\n' then
    "\"" ++ String.mk (dupQuotes v.data) ++ "\""
  else v

/-- The CSV header list of `downloadFilteredCsv` (utils.ts line 471). -/
def CSV_HEADERS : List String := EXPECTED_HEADERS ++ ["AccreditationNormalized"]

/-- The per-row value list of `downloadFilteredCsv` (utils.ts line 479):
`headers.map (h => row[h])` in `CSV_HEADERS` order. -/
def csvValues (r : DerivedRow) : List String :=
  [r.campus, r.college, r.program, r.major, r.level, r.copcStatus,
   r.copcNo, r.contentsNotation, r.accreditation, r.cmoPsg,
   r.borResolution, r.dean, r.accreditationNormalized]

/-- The text serialized by `downloadFilteredCsv` (utils.ts lines 470-486):
an unescaped header line followed by one escaped line per record, joined
with newlines. -/
def downloadFilteredCsvText (rows : List DerivedRow) : String :=
  joinSep "\n"
    (joinSep "," CSV_HEADERS ::
      rows.map (fun r => joinSep "," ((csvValues r).map escapeField)))

/-- A standard CSV parser (RFC-4180 style, LF record separator), used to
state the export round-trip property: `field` is the current field
accumulator, `record` the fields of the current record, `records` the
finished records.  Outside quotes a comma ends the field, a newline ends
the record, a double quote enters quoted mode; inside quotes a doubled
double quote is a literal quote and a single one leaves quoted mode. -/
def csvGo (inQ : Bool) (field : List Char) (record : List String)
    (records : List (List String)) : List Char → List (List String)
  | [] => records ++ [record ++ [String.mk field]]
  | c :: cs =>
    if inQ then
      if c = '"' then
        match cs with
        | '"' :: cs2 => csvGo true (field ++ ['"']) record records cs2
        | cs2 => csvGo false field record records cs2
      else csvGo true (field ++ [c]) record records cs
    else
      if c = ',' then csvGo false [] (record ++ [String.mk field]) records cs
      else if c = '\n' then
        csvGo false [] [] (records ++ [record ++ [String.mk field]]) cs
      else if c = '"' then csvGo true field record records cs
      else csvGo false (field ++ [c]) record records cs

/-- Parse a whole CSV text into its records of fields. -/
def csvParse (s : String) : List (List String) :=
  csvGo false [] [] [] s.data

/-! ## Formalization-side notions used to state the claims -/

/-- One multi-select dimension is at least as constraining: either the
weaker side has no constraint (empty selection), or the stronger side is a
non-empty sub-selection of the weaker one. -/
def listStronger (s' s : List String) : Prop :=
  s = [] ∨ (s' ≠ [] ∧ ∀ x ∈ s', x ∈ s)

/-- The search constraint of the first state is at least as strong: the
weaker trimmed lowercased query occurs inside the stronger one. -/
def searchStronger (q' q : String) : Prop :=
  (jsToLower (jsTrim q)).data <:+: (jsToLower (jsTrim q')).data

/-- `f'` is the filter state `f` strengthened dimension-wise: every
multi-select set is at least as constraining, `hideBlankMajor` may only be
turned on, and the required search match may only grow. -/
def strongerFilter (f' f : FilterState) : Prop :=
  listStronger f'.colleges f.colleges ∧
  listStronger f'.levels f.levels ∧
  listStronger f'.copcStatuses f.copcStatuses ∧
  listStronger f'.accreditations f.accreditations ∧
  listStronger f'.deans f.deans ∧
  (f.hideBlankMajor = true → f'.hideBlankMajor = true) ∧
  searchStronger f'.search f.search

/-- The CSV values of a row split as (first twelve fields, last field),
the shape used by the round-trip induction. -/
def csvPair (r : DerivedRow) : List String × String :=
  ([r.campus, r.college, r.program, r.major, r.level, r.copcStatus,
    r.copcNo, r.contentsNotation, r.accreditation, r.cmoPsg,
    r.borResolution, r.dean], r.accreditationNormalized)

/-- A concrete program record used in witnesses. -/
def sampleProgramRow : ProgramRow :=
  { campus := "Bambang", college := "CAS", program := "BS Math"
    major := "Pure", level := "Undergraduate", copcStatus := "Issued"
    copcNo := "C-1", contentsNotation := "Complete"
    accreditation := "Level II Accredited", cmoPsg := "CMO 1"
    borResolution := "BOR 2", dean := "Dr. X" }

/-- The sample record with its derived accreditation field. -/
def sampleDerivedRow : DerivedRow :=
  { toProgramRow := sampleProgramRow, accreditationNormalized := "Level II" }

/-- A filter state strictly stronger than `DEFAULT_FILTERS`, used in
witnesses. -/
def narrowFilter : FilterState :=
  { colleges := ["CAS"], levels := [], copcStatuses := [], accreditations := []
    deans := [], search := "math", hideBlankMajor := true }

/-- A derived record that only carries a COPC status, used for the KPI
phase-out examples. -/
def statusOnlyRow (s : String) : DerivedRow :=
  { campus := "", college := "", program := "", major := "", level := ""
    copcStatus := s, copcNo := "", contentsNotation := "", accreditation := ""
    cmoPsg := "", borResolution := "", dean := "", accreditationNormalized := "" }

/-- A program record that only carries a campus, used for the campus
restriction examples. -/
def campusOnlyRow (c : String) : ProgramRow :=
  { campus := c, college := "", program := "", major := "", level := ""
    copcStatus := "", copcNo := "", contentsNotation := "", accreditation := ""
    cmoPsg := "", borResolution := "", dean := "" }

/-! ## Helper lemmas -/

theorem isPrefixChars_correct :
    ∀ x y : List Char, isPrefixChars x y = true ↔ x <+: y := by
  intro x
  induction x with
  | nil => intro y; simp [isPrefixChars]
  | cons a as ih =>
    intro y
    cases y with
    | nil => simp [isPrefixChars]
    | cons b bs =>
      simp [isPrefixChars, Bool.and_eq_true, ih bs, List.cons_prefix_cons]

theorem isSubstr_correct (pat : List Char) :
    ∀ l : List Char, isSubstr pat l = true ↔ pat <:+: l := by
  intro l
  induction l with
  | nil =>
    simp [isSubstr, isPrefixChars_correct, List.infix_nil]
  | cons c cs ih =>
    simp [isSubstr, Bool.or_eq_true, isPrefixChars_correct, ih,
      List.infix_cons_iff]

theorem jsToLower_eq_empty (s : String) : jsToLower s = "" ↔ s = "" := by
  cases s with
  | mk data =>
    simp [jsToLower, String.ext_iff]

theorem chLe_total : ∀ x y : List Char, chLe x y = true ∨ chLe y x = true := by
  intro x
  induction x with
  | nil => intro y; left; simp [chLe]
  | cons a as ih =>
    intro y
    cases y with
    | nil => right; simp [chLe]
    | cons b bs =>
      by_cases hab : a = b
      · subst hab
        simpa [chLe] using ih bs
      · rcases lt_or_gt_of_ne hab with h | h
        · left; simp [chLe, hab, h]
        · right; simp [chLe, Ne.symm hab, h]

theorem chLe_trans :
    ∀ x y z : List Char, chLe x y = true → chLe y z = true → chLe x z = true := by
  intro x
  induction x with
  | nil => intro y z _ _; simp [chLe]
  | cons a as ih =>
    intro y z hxy hyz
    cases y with
    | nil => simp [chLe] at hxy
    | cons b bs =>
      cases z with
      | nil => simp [chLe] at hyz
      | cons c cs =>
        by_cases hab : a = b <;> by_cases hbc : b = c
        · subst hab; subst hbc
          simp only [chLe, if_pos rfl] at hxy hyz ⊢
          exact ih bs cs hxy hyz
        · subst hab
          simp only [chLe, if_pos rfl] at hxy
          simp only [chLe, if_neg hbc, decide_eq_true_eq] at hyz
          simp [chLe, hbc, hyz]
        · subst hbc
          simp only [chLe, if_neg hab, decide_eq_true_eq] at hxy
          simp [chLe, hab, hxy]
        · simp only [chLe, if_neg hab, decide_eq_true_eq] at hxy
          simp only [chLe, if_neg hbc, decide_eq_true_eq] at hyz
          have hac : a < c := lt_trans hxy hyz
          simp [chLe, ne_of_lt hac, hac]

instance : IsTotal String strLeBase :=
  ⟨fun a b => chLe_total (jsToLower a).data (jsToLower b).data⟩

instance : IsTrans String strLeBase :=
  ⟨fun _ _ _ hab hbc => chLe_trans _ _ _ hab hbc⟩

theorem mem_jsSetDedup {a : String} :
    ∀ l : List String, a ∈ jsSetDedup l ↔ a ∈ l := by
  intro l
  induction l with
  | nil => simp [jsSetDedup]
  | cons x xs ih =>
    by_cases hax : a = x
    · subst hax; simp [jsSetDedup]
    · simp [jsSetDedup, List.mem_filter, hax, ih, bne_iff_ne]

theorem nodup_jsSetDedup : ∀ l : List String, (jsSetDedup l).Nodup := by
  intro l
  induction l with
  | nil => simp [jsSetDedup]
  | cons x xs ih =>
    refine List.Nodup.cons ?_ (List.Nodup.filter _ ih)
    intro hmem
    rcases List.mem_filter.mp hmem with ⟨-, hne⟩
    simp [bne_iff_ne] at hne

theorem length_jsSetDedup_eq_card (l : List String) :
    (jsSetDedup l).length = l.toFinset.card := by
  have hset : (jsSetDedup l).toFinset = l.toFinset := by
    ext a
    simp [List.mem_toFinset, mem_jsSetDedup]
  rw [← hset, List.toFinset_card_of_nodup (nodup_jsSetDedup l)]

theorem csvGo_nil (inQ : Bool) (f : List Char) (rec : List String)
    (recs : List (List String)) :
    csvGo inQ f rec recs [] = recs ++ [rec ++ [String.mk f]] := by
  rw [csvGo.eq_def]

theorem csvGo_quoted_dq (f : List Char) (rec : List String)
    (recs : List (List String)) (cs : List Char) :
    csvGo true f rec recs ('"' :: '"' :: cs) =
      csvGo true (f ++ ['"']) rec recs cs := by
  rw [csvGo.eq_def]
  simp

theorem csvGo_quoted_close (f : List Char) (rec : List String)
    (recs : List (List String)) (cs : List Char)
    (h : cs.head? ≠ some '"') :
    csvGo true f rec recs ('"' :: cs) = csvGo false f rec recs cs := by
  rw [csvGo.eq_def]
  simp only [if_true, if_pos rfl]
  split
  · exact absurd rfl h
  · rfl

theorem csvGo_quoted_char (f : List Char) (rec : List String)
    (recs : List (List String)) (c : Char) (cs : List Char) (h : c ≠ '"') :
    csvGo true f rec recs (c :: cs) = csvGo true (f ++ [c]) rec recs cs := by
  rw [csvGo.eq_def]
  simp [h]

theorem csvGo_comma (f : List Char) (rec : List String)
    (recs : List (List String)) (cs : List Char) :
    csvGo false f rec recs (',' :: cs) =
      csvGo false [] (rec ++ [String.mk f]) recs cs := by
  rw [csvGo.eq_def]
  simp

theorem csvGo_newline (f : List Char) (rec : List String)
    (recs : List (List String)) (cs : List Char) :
    csvGo false f rec recs ('\n' :: cs) =
      csvGo false [] [] (recs ++ [rec ++ [String.mk f]]) cs := by
  rw [csvGo.eq_def]
  simp

theorem csvGo_open_quote (f : List Char) (rec : List String)
    (recs : List (List String)) (cs : List Char) :
    csvGo false f rec recs ('"' :: cs) = csvGo true f rec recs cs := by
  rw [csvGo.eq_def]
  simp

theorem csvGo_plain_char (f : List Char) (rec : List String)
    (recs : List (List String)) (c : Char) (cs : List Char)
    (h1 : c ≠ ',') (h2 : c ≠ '\n') (h3 : c ≠ '"') :
    csvGo false f rec recs (c :: cs) = csvGo false (f ++ [c]) rec recs cs := by
  rw [csvGo.eq_def]
  simp [h1, h2, h3]

theorem csvGo_run_plain (v : List Char)
    (hv : ∀ c ∈ v, c ≠ ',' ∧ c ≠ '\n' ∧ c ≠ '"') :
    ∀ (f : List Char) (rec : List String) (recs : List (List String))
      (cs : List Char),
      csvGo false f rec recs (v ++ cs) = csvGo false (f ++ v) rec recs cs := by
  induction v with
  | nil => intro f rec recs cs; simp
  | cons c v ih =>
    intro f rec recs cs
    obtain ⟨h1, h2, h3⟩ := hv c (List.mem_cons_self c v)
    have hv' : ∀ d ∈ v, d ≠ ',' ∧ d ≠ '\n' ∧ d ≠ '"' := by
      intro d hd; exact hv d (List.mem_cons_of_mem c hd)
    rw [List.cons_append, csvGo_plain_char _ _ _ _ _ h1 h2 h3, ih hv']
    simp

theorem csvGo_run_quoted (v : List Char) :
    ∀ (f : List Char) (rec : List String) (recs : List (List String))
      (cs : List Char), cs.head? ≠ some '"' →
      csvGo true f rec recs (dupQuotes v ++ '"' :: cs) =
        csvGo false (f ++ v) rec recs cs := by
  induction v with
  | nil =>
    intro f rec recs cs h
    simpa [dupQuotes] using csvGo_quoted_close f rec recs cs h
  | cons c v ih =>
    intro f rec recs cs h
    by_cases hc : c = '"'
    · subst hc
      rw [show dupQuotes ('"' :: v) = '"' :: '"' :: dupQuotes v from rfl]
      rw [List.cons_append, List.cons_append, csvGo_quoted_dq, ih _ _ _ _ h]
      simp
    · rw [show dupQuotes (c :: v) = c :: dupQuotes v by simp [dupQuotes, hc]]
      rw [List.cons_append, csvGo_quoted_char _ _ _ _ _ hc, ih _ _ _ _ h]
      simp

theorem no_specials_of_not_escaped (v : String)
    (h : (v.data.contains ',' || v.data.contains '"' || v.data.contains '\n') = false) :
    ∀ c ∈ v.data, c ≠ ',' ∧ c ≠ '\n' ∧ c ≠ '"' := by
  intro c hc
  simp only [Bool.or_eq_false_iff] at h
  obtain ⟨⟨h1, h2⟩, h3⟩ := h
  refine ⟨fun e => ?_, fun e => ?_, fun e => ?_⟩ <;> subst e
  · simp at h1; exact h1 hc
  · simp at h3; exact h3 hc
  · simp at h2; exact h2 hc

theorem csvGo_field (v : String) (rec : List String)
    (recs : List (List String)) (cs : List Char) (h : cs.head? ≠ some '"') :
    csvGo false [] rec recs ((escapeField v).data ++ cs) =
      csvGo false v.data rec recs cs := by
  by_cases hesc :
      (v.data.contains ',' || v.data.contains '"' || v.data.contains '\n') = true
  · have hdata : (escapeField v).data = '"' :: (dupQuotes v.data ++ ['"']) := by
      unfold escapeField
      rw [if_pos hesc, String.data_append, String.data_append]
      simp
    rw [hdata, List.cons_append, csvGo_open_quote, List.append_assoc]
    rw [show (['"'] : List Char) ++ cs = '"' :: cs from rfl]
    simpa using csvGo_run_quoted v.data [] rec recs cs h
  · have hne := eq_false_of_ne_true hesc
    have hskip : escapeField v = v := by
      unfold escapeField
      rw [if_neg (by simpa using hne)]
    rw [hskip]
    simpa using csvGo_run_plain v.data (no_specials_of_not_escaped v hne) [] rec recs cs

theorem joinSep_cons (sep a : String) (l : List String) (h : l ≠ []) :
    joinSep sep (a :: l) = a ++ sep ++ joinSep sep l := by
  cases l with
  | nil => exact absurd rfl h
  | cons b t => rfl

theorem csvGo_fields (vs : List String) (v : String) :
    ∀ (rec : List String) (recs : List (List String)) (cs : List Char),
      cs.head? ≠ some '"' →
      csvGo false [] rec recs
        ((joinSep "," ((vs ++ [v]).map escapeField)).data ++ cs) =
        csvGo false v.data (rec ++ vs) recs cs := by
  induction vs with
  | nil =>
    intro rec recs cs h
    simpa using csvGo_field v rec recs cs h
  | cons w vs ih =>
    intro rec recs cs h
    rw [show ((w :: vs) ++ [v]) = w :: (vs ++ [v]) from rfl, List.map_cons,
      joinSep_cons _ _ _ (by simp), String.data_append, String.data_append,
      List.append_assoc, List.append_assoc,
      show (",".data : List Char) = [','] from rfl,
      show ([','] : List Char) ++ ((joinSep "," ((vs ++ [v]).map escapeField)).data ++ cs)
        = ',' :: ((joinSep "," ((vs ++ [v]).map escapeField)).data ++ cs) from rfl,
      csvGo_field w rec recs _ (by simp), csvGo_comma,
      show String.mk w.data = w from rfl, ih (rec ++ [w]) recs cs h]
    simp

theorem csvGo_lines (ps : List (List String × String)) :
    ∀ (p : List String × String) (recs : List (List String)),
      csvGo false [] [] recs
        ((joinSep "\n" ((p :: ps).map
          (fun q => joinSep "," ((q.1 ++ [q.2]).map escapeField)))).data) =
        recs ++ (p :: ps).map (fun q => q.1 ++ [q.2]) := by
  induction ps with
  | nil =>
    intro p recs
    simp only [List.map_cons, List.map_nil]
    rw [show ((joinSep "\n" [joinSep "," ((p.1 ++ [p.2]).map escapeField)]).data)
        = (joinSep "," ((p.1 ++ [p.2]).map escapeField)).data ++ ([] : List Char) by
      simp [joinSep]]
    rw [csvGo_fields p.1 p.2 [] recs [] (by simp), csvGo_nil]
    simp
  | cons q ps ih =>
    intro p recs
    have ih' := ih q (recs ++ [p.1 ++ [p.2]])
    simp only [List.map_cons] at ih' ⊢
    rw [joinSep_cons _ _ _ (by simp), String.data_append, String.data_append,
      List.append_assoc,
      show ("\n".data : List Char) = ['\n'] from rfl,
      List.singleton_append,
      csvGo_fields p.1 p.2 [] recs _ (by simp), csvGo_newline,
      show String.mk p.2.data = p.2 from rfl]
    simp only [List.nil_append]
    rw [ih']
    simp

theorem infixOf_joinSep (sep x : String) :
    ∀ l : List String, x ∈ l → x.data <:+: (joinSep sep l).data := by
  intro l
  induction l with
  | nil => intro h; simp at h
  | cons a t ih =>
    intro hmem
    cases t with
    | nil =>
      have hx : x = a := by simpa using hmem
      subst hx
      exact List.infix_refl _
    | cons b t2 =>
      rw [joinSep_cons _ _ _ (by simp), String.data_append, String.data_append]
      rcases List.mem_cons.mp hmem with hx | hx
      · subst hx
        exact ⟨[], sep.data ++ (joinSep sep (b :: t2)).data, by simp⟩
      · exact (ih hx).trans ⟨a.data ++ sep.data, [], by simp⟩

theorem matchesMulti_mono (s' s : List String) (v : String)
    (h : listStronger s' s) (hm : matchesMulti s' v = true) :
    matchesMulti s v = true := by
  rcases h with hnil | ⟨hne, hsub⟩
  · subst hnil; rfl
  · unfold matchesMulti at hm ⊢
    rw [List.isEmpty_eq_false.mpr hne] at hm
    simp only [Bool.false_eq_true, if_false] at hm
    have hv : v ∈ s := hsub v (List.elem_iff.mp hm)
    by_cases hse : s.isEmpty = true
    · rw [hse]; rfl
    · rw [eq_false_of_ne_true hse]
      simpa using List.elem_eq_true_of_mem hv

theorem includesSearch_of_trim_empty (r : ProgramRow) (q : String)
    (h : jsTrim q = "") : includesSearch r q = true := by
  have he : jsToLower "" = "" := by decide
  unfold includesSearch
  rw [h, if_pos he]

theorem includesSearch_mono (r : ProgramRow) (q q' : String)
    (h : searchStronger q' q) (hm : includesSearch r q' = true) :
    includesSearch r q = true := by
  unfold includesSearch at hm ⊢
  by_cases hq : jsToLower (jsTrim q) = ""
  · rw [if_pos hq]
  · rw [if_neg hq]
    have hq' : jsToLower (jsTrim q') ≠ "" := by
      intro e
      unfold searchStronger at h
      rw [e] at h
      exact hq (String.ext (List.infix_nil.mp h))
    rw [if_neg hq'] at hm
    rw [isSubstr_correct] at hm ⊢
    exact List.IsInfix.trans h hm

theorem rowPasses_mono (f f' : FilterState) (h : strongerFilter f' f)
    (r : DerivedRow) (hp : rowPasses f' r = true) : rowPasses f r = true := by
  obtain ⟨h1, h2, h3, h4, h5, h6, h7⟩ := h
  unfold rowPasses at hp ⊢
  simp only [Bool.and_eq_true] at hp ⊢
  obtain ⟨⟨⟨⟨⟨⟨ha, hb⟩, hc⟩, hd⟩, he⟩, hg⟩, hs⟩ := hp
  refine ⟨⟨⟨⟨⟨⟨matchesMulti_mono _ _ _ h1 ha, matchesMulti_mono _ _ _ h2 hb⟩,
    matchesMulti_mono _ _ _ h3 hc⟩, matchesMulti_mono _ _ _ h4 hd⟩,
    matchesMulti_mono _ _ _ h5 he⟩, ?_⟩, includesSearch_mono _ _ _ h7 hs⟩
  by_cases hf : f.hideBlankMajor = true
  · have hf' := h6 hf
    rw [hf'] at hg
    rw [hf]
    exact hg
  · rw [eq_false_of_ne_true hf]
    rfl

/-! ## Claim theorems -/

/-- Claim C1: `normalizeAccreditation` returns `Unknown` for inputs that
are empty after trimming; otherwise it matches the uppercased trimmed
input against `LEVEL IV`, `LEVEL III`, `LEVEL II`, `LEVEL I`, `CANDIDATE`
in exactly that priority order, the first match giving the canonical
label, and returns the trimmed original unchanged when none match; in
particular `normalizeAccreditation "Level I Candidate" = "Level I"`, and
any input containing `LEVEL IV` maps to `Level IV` (never a lower
level). -/
theorem normalizeAccreditation_claim :
    (∀ raw : String,
      (jsTrim raw = "" → normalizeAccreditation raw = "Unknown") ∧
      (jsTrim raw ≠ "" →
        isSubstr "LEVEL IV".data (jsToUpper (jsTrim raw)).data = true →
        normalizeAccreditation raw = "Level IV") ∧
      (jsTrim raw ≠ "" →
        isSubstr "LEVEL IV".data (jsToUpper (jsTrim raw)).data = false →
        isSubstr "LEVEL III".data (jsToUpper (jsTrim raw)).data = true →
        normalizeAccreditation raw = "Level III") ∧
      (jsTrim raw ≠ "" →
        isSubstr "LEVEL IV".data (jsToUpper (jsTrim raw)).data = false →
        isSubstr "LEVEL III".data (jsToUpper (jsTrim raw)).data = false →
        isSubstr "LEVEL II".data (jsToUpper (jsTrim raw)).data = true →
        normalizeAccreditation raw = "Level II") ∧
      (jsTrim raw ≠ "" →
        isSubstr "LEVEL IV".data (jsToUpper (jsTrim raw)).data = false →
        isSubstr "LEVEL III".data (jsToUpper (jsTrim raw)).data = false →
        isSubstr "LEVEL II".data (jsToUpper (jsTrim raw)).data = false →
        isSubstr "LEVEL I".data (jsToUpper (jsTrim raw)).data = true →
        normalizeAccreditation raw = "Level I") ∧
      (jsTrim raw ≠ "" →
        isSubstr "LEVEL IV".data (jsToUpper (jsTrim raw)).data = false →
        isSubstr "LEVEL III".data (jsToUpper (jsTrim raw)).data = false →
        isSubstr "LEVEL II".data (jsToUpper (jsTrim raw)).data = false →
        isSubstr "LEVEL I".data (jsToUpper (jsTrim raw)).data = false →
        isSubstr "CANDIDATE".data (jsToUpper (jsTrim raw)).data = true →
        normalizeAccreditation raw = "Candidate") ∧
      (jsTrim raw ≠ "" →
        isSubstr "LEVEL IV".data (jsToUpper (jsTrim raw)).data = false →
        isSubstr "LEVEL III".data (jsToUpper (jsTrim raw)).data = false →
        isSubstr "LEVEL II".data (jsToUpper (jsTrim raw)).data = false →
        isSubstr "LEVEL I".data (jsToUpper (jsTrim raw)).data = false →
        isSubstr "CANDIDATE".data (jsToUpper (jsTrim raw)).data = false →
        normalizeAccreditation raw = jsTrim raw)) ∧
    normalizeAccreditation "Level I Candidate" = "Level I" := by
  refine ⟨fun raw => ⟨?_, ?_, ?_, ?_, ?_, ?_, ?_⟩, by decide⟩
  · intro h
    unfold normalizeAccreditation
    rw [if_pos h]
  · intro hne h4
    unfold normalizeAccreditation
    rw [if_neg hne, if_pos h4]
  · intro hne h4 h3
    unfold normalizeAccreditation
    rw [if_neg hne, if_neg (by simp [h4]), if_pos h3]
  · intro hne h4 h3 h2
    unfold normalizeAccreditation
    rw [if_neg hne, if_neg (by simp [h4]), if_neg (by simp [h3]), if_pos h2]
  · intro hne h4 h3 h2 h1
    unfold normalizeAccreditation
    rw [if_neg hne, if_neg (by simp [h4]), if_neg (by simp [h3]),
      if_neg (by simp [h2]), if_pos h1]
  · intro hne h4 h3 h2 h1 hcand
    unfold normalizeAccreditation
    rw [if_neg hne, if_neg (by simp [h4]), if_neg (by simp [h3]),
      if_neg (by simp [h2]), if_neg (by simp [h1]), if_pos hcand]
  · intro hne h4 h3 h2 h1 hcand
    unfold normalizeAccreditation
    rw [if_neg hne, if_neg (by simp [h4]), if_neg (by simp [h3]),
      if_neg (by simp [h2]), if_neg (by simp [h1]), if_neg (by simp [hcand])]

/-- Witness for C1: the theorem applied at a concrete input, with all
hypotheses discharged by evaluation. -/
theorem normalizeAccreditation_claim_witness :
    normalizeAccreditation "Accredited Level III Program" = "Level III" :=
  ((normalizeAccreditation_claim.1 "Accredited Level III Program").2.2.1)
    (by decide) (by decide) (by decide)

/-- Counterexample to claim C2 as stated: deduplication in `uniqSorted`
is case-sensitive (the JS `Set` compares exact trimmed strings), so
`"b"` and `"B"` are both kept and the claimed result `["a", "b"]` is
wrong. -/
theorem uniqSorted_claim_counterexample :
    uniqSorted ["b", "a", " a ", "", "B"] ≠ ["a", "b"] := by decide

/-- Amended claim C2: `uniqSorted` trims every value, discards values
that are empty after trimming, deduplicates case-sensitively (exact
equality of trimmed values, first occurrence kept), and sorts
case-insensitively with the locale-aware comparator; in particular
`uniqSorted ["b", "a", " a ", "", "B"] = ["a", "b", "B"]`. -/
theorem uniqSorted_amended :
    uniqSorted ["b", "a", " a ", "", "B"] = ["a", "b", "B"] ∧
    ∀ vs : List String,
      (uniqSorted vs).Nodup ∧
      (∀ v ∈ uniqSorted vs, v ≠ "" ∧ ∃ w ∈ vs, jsTrim w = v) ∧
      (∀ w ∈ vs, jsTrim w ≠ "" → jsTrim w ∈ uniqSorted vs) ∧
      List.Pairwise strLeBase (uniqSorted vs) := by
  refine ⟨by decide, fun vs => ⟨?_, ?_, ?_, ?_⟩⟩
  · exact ((List.perm_insertionSort strLeBase _).nodup_iff).mpr
      (nodup_jsSetDedup _)
  · intro v hv
    have hv' : v ∈ jsSetDedup ((vs.map jsTrim).filter (fun x => x != "")) :=
      ((List.perm_insertionSort strLeBase _).mem_iff).mp hv
    rcases List.mem_filter.mp (mem_jsSetDedup _ |>.mp hv') with ⟨hmem, hne⟩
    rcases List.mem_map.mp hmem with ⟨w, hw, hwv⟩
    exact ⟨by simpa using hne, w, hw, hwv⟩
  · intro w hw hne
    apply ((List.perm_insertionSort strLeBase _).mem_iff).mpr
    apply (mem_jsSetDedup _).mpr
    exact List.mem_filter.mpr ⟨List.mem_map_of_mem jsTrim hw, by simpa using hne⟩
  · exact List.sorted_insertionSort strLeBase _

/-- Witness for the amended C2 theorem: applied at a concrete list and
element, hypotheses discharged by evaluation. -/
theorem uniqSorted_amended_witness :
    "a" ≠ "" ∧ ∃ w ∈ (["b", "a"] : List String), jsTrim w = "a" :=
  (uniqSorted_amended.2 ["b", "a"]).2.1 "a" (by decide)

/-- Claim C3: with all five multi-select sets empty, a blank search
string and the blank-major flag unset (the empty filter state),
`filteredRows` returns the input list unchanged, in order. -/
theorem filteredRows_empty_filter_id :
    ∀ (rows : List DerivedRow) (f : FilterState),
      f.colleges = [] → f.levels = [] → f.copcStatuses = [] →
      f.accreditations = [] → f.deans = [] → jsTrim f.search = "" →
      f.hideBlankMajor = false → filteredRows rows f = rows := by
  intro rows f h1 h2 h3 h4 h5 h6 h7
  apply List.filter_eq_self.mpr
  intro r _
  unfold rowPasses
  rw [h1, h2, h3, h4, h5, h7, includesSearch_of_trim_empty _ _ h6]
  simp [matchesMulti]

/-- Witness for C3: the identity at a concrete record list and the
default filter state. -/
theorem filteredRows_empty_filter_id_witness :
    filteredRows [sampleDerivedRow] DEFAULT_FILTERS = [sampleDerivedRow] :=
  filteredRows_empty_filter_id [sampleDerivedRow] DEFAULT_FILTERS
    rfl rfl rfl rfl rfl (by decide) rfl

/-- Claim C4: filtering is monotonic — strengthening the filter state
(shrinking a non-empty selection set, constraining a previously empty
one, turning on `hideBlankMajor`, or extending the required search
match) yields a sublist of the previous result, so the result size never
increases. -/
theorem filteredRows_mono :
    ∀ (rows : List DerivedRow) (f f' : FilterState), strongerFilter f' f →
      (filteredRows rows f').Sublist (filteredRows rows f) ∧
      (filteredRows rows f').length ≤ (filteredRows rows f).length := by
  intro rows f f' h
  have hsub : (filteredRows rows f').Sublist (filteredRows rows f) :=
    List.monotone_filter_right rows (fun r hr => rowPasses_mono f f' h r hr)
  exact ⟨hsub, hsub.length_le⟩

/-- Witness for C4: a concretely strengthened filter applied to a
concrete record list. -/
theorem filteredRows_mono_witness :
    (filteredRows [sampleDerivedRow] narrowFilter).Sublist
        (filteredRows [sampleDerivedRow] DEFAULT_FILTERS) ∧
      (filteredRows [sampleDerivedRow] narrowFilter).length ≤
        (filteredRows [sampleDerivedRow] DEFAULT_FILTERS).length :=
  filteredRows_mono [sampleDerivedRow] DEFAULT_FILTERS narrowFilter
    ⟨Or.inl rfl, Or.inl rfl, Or.inl rfl, Or.inl rfl, Or.inl rfl,
      fun h => by exact absurd h (by decide), List.nil_infix⟩

/-- Claim C5: the free-text search passes whenever the trimmed query is
empty, and otherwise passes exactly when the trimmed lowercased query
occurs inside the lowercased pipe-joined concatenation of the eleven
searched fields (empty fields skipped); the Campus field is never
searched. -/
theorem includesSearch_claim :
    ∀ (r : ProgramRow) (q : String),
      (jsTrim q = "" → includesSearch r q = true) ∧
      (jsTrim q ≠ "" →
        (includesSearch r q = true ↔
          (jsToLower (jsTrim q)).data <:+:
            (jsToLower (joinSep " | "
              ((searchFields r).filter (fun s => s != "")))).data)) ∧
      (∀ c : String, includesSearch { r with campus := c } q = includesSearch r q) := by
  intro r q
  refine ⟨includesSearch_of_trim_empty r q, ?_, ?_⟩
  · intro hne
    have hq : jsToLower (jsTrim q) ≠ "" := by
      intro e
      exact hne ((jsToLower_eq_empty (jsTrim q)).mp e)
    unfold includesSearch
    rw [if_neg hq]
    exact isSubstr_correct _ _
  · intro c
    rfl

/-- Witness for C5: the theorem applied at a concrete record and query,
hypothesis discharged by evaluation. -/
theorem includesSearch_claim_witness :
    includesSearch sampleProgramRow "" = true :=
  (includesSearch_claim sampleProgramRow "").1 (by decide)

/-- Claim C6: the KPI summary counts the list length, the records whose
COPC status lowercases exactly to `issued` resp. `under application`,
the records whose lowercased status contains the substring `phase-out`
(so `Voluntary Phase-Out` and `phase-out (pending)` count but `Phased`
does not), and the number of distinct non-empty college values. -/
theorem kpis_claim :
    (∀ rows : List DerivedRow,
      (kpis rows).total = rows.length ∧
      (kpis rows).issued =
        rows.countP (fun r => jsToLower r.copcStatus == "issued") ∧
      (kpis rows).underApp =
        rows.countP (fun r => jsToLower r.copcStatus == "under application") ∧
      (kpis rows).phaseOut =
        rows.countP (fun r =>
          isSubstr "phase-out".data (jsToLower r.copcStatus).data) ∧
      (kpis rows).colleges =
        (((rows.map (fun r => r.college)).filter
          (fun s => s != "")).toFinset).card) ∧
    (kpis [statusOnlyRow "Voluntary Phase-Out"]).phaseOut = 1 ∧
    (kpis [statusOnlyRow "phase-out (pending)"]).phaseOut = 1 ∧
    (kpis [statusOnlyRow "Phased"]).phaseOut = 0 := by
  refine ⟨fun rows => ⟨rfl, ?_, ?_, ?_, ?_⟩, by decide, by decide, by decide⟩
  · rw [List.countP_eq_length_filter]; rfl
  · rw [List.countP_eq_length_filter]; rfl
  · rw [List.countP_eq_length_filter]; rfl
  · exact (length_jsSetDedup_eq_card _)

/-- Claim C7: the campus restriction keeps exactly the records whose
Campus field equals the fixed target `Bambang` after trimming and
lowercasing, and the removed count is the number of parsed rows minus
the number retained; `BAMBANG`, `bambang ` and `Bambang` are retained,
`Solano` is removed. -/
theorem restrictCampus_claim :
    (∀ raw : List ProgramRow,
      (∀ r : ProgramRow,
        r ∈ (restrictCampus raw).1 ↔
          r ∈ raw ∧ jsToLower (jsTrim r.campus) = "bambang") ∧
      (restrictCampus raw).2 = raw.length - (restrictCampus raw).1.length) ∧
    restrictCampus [campusOnlyRow "BAMBANG", campusOnlyRow "bambang ",
        campusOnlyRow "Bambang", campusOnlyRow "Solano"] =
      ([campusOnlyRow "BAMBANG", campusOnlyRow "bambang ",
        campusOnlyRow "Bambang"], 1) := by
  refine ⟨fun raw => ⟨fun r => ?_, rfl⟩, by decide⟩
  unfold restrictCampus
  simp only [List.mem_filter, beq_iff_eq]

theorem validateHeaders_unfolded (hs : List String) :
    validateHeaders hs =
      if EXPECTED_HEADERS.filter (fun h => !((hs.map jsTrim).contains h)) = []
      then none
      else some ("Missing expected columns: " ++
        joinSep ", " (EXPECTED_HEADERS.filter
          (fun h => !((hs.map jsTrim).contains h)))) := rfl

theorem mem_missing_of_not_mem (hs : List String) (h : String)
    (hmem : h ∈ EXPECTED_HEADERS) (habs : h ∉ hs.map jsTrim) :
    h ∈ EXPECTED_HEADERS.filter (fun x => !((hs.map jsTrim).contains x)) := by
  refine List.mem_filter.mpr ⟨hmem, ?_⟩
  cases hc : (hs.map jsTrim).contains h
  · simp
  · exact absurd (List.elem_iff.mp hc) habs

/-- Claim C8: header validation succeeds exactly when each of the twelve
expected column names occurs among the trimmed observed headers (any
order, extra columns tolerated); when some are absent it fails with a
message listing every absent expected column, ingestion propagates that
failure, and in particular a sheet missing the `Dean` column fails with
a message containing `Dean`. -/
theorem validateHeaders_claim :
    (∀ hs : List String,
      (validateHeaders hs = none ↔ ∀ h ∈ EXPECTED_HEADERS, h ∈ hs.map jsTrim) ∧
      (∀ h ∈ EXPECTED_HEADERS, h ∉ hs.map jsTrim →
        ∃ msg, validateHeaders hs = some msg ∧ h.data <:+: msg.data)) ∧
    (∀ (row : List (String × CellVal)) (rest : List (List (String × CellVal)))
      (e : String), validateHeaders (row.map Prod.fst) = some e →
      parseRows (row :: rest) = .error e) ∧
    (∃ msg,
      validateHeaders (EXPECTED_HEADERS.filter (fun h => h != "Dean")) = some msg ∧
      isSubstr "Dean".data msg.data = true) := by
  refine ⟨fun hs => ⟨⟨?_, ?_⟩, ?_⟩, ?_, ?_⟩
  · intro hnone h hmem
    by_contra habs
    have hne := List.ne_nil_of_mem (mem_missing_of_not_mem hs h hmem habs)
    rw [validateHeaders_unfolded, if_neg hne] at hnone
    exact Option.noConfusion hnone
  · intro hall
    rw [validateHeaders_unfolded,
      if_pos (List.filter_eq_nil_iff.mpr (fun h hmem => by
        have hc : (hs.map jsTrim).contains h = true :=
          List.elem_eq_true_of_mem (hall h hmem)
        simp only [hc, Bool.not_true]
        decide))]
  · intro h hmem habs
    have hin := mem_missing_of_not_mem hs h hmem habs
    refine ⟨"Missing expected columns: " ++
      joinSep ", " (EXPECTED_HEADERS.filter
        (fun x => !((hs.map jsTrim).contains x))), ?_, ?_⟩
    · rw [validateHeaders_unfolded, if_neg (List.ne_nil_of_mem hin)]
    · rw [String.data_append]
      exact (infixOf_joinSep ", " h _ hin).trans
        ⟨"Missing expected columns: ".data, [], by simp⟩
  · intro row rest e he
    simp [parseRows, he]
  · exact ⟨"Missing expected columns: Dean", by decide, by decide⟩

/-- Witness for C8: the theorem applied to the empty header list and the
column `Dean`, with the hypotheses discharged by evaluation. -/
theorem validateHeaders_claim_witness :
    ∃ msg, validateHeaders [] = some msg ∧ "Dean".data <:+: msg.data :=
  ((validateHeaders_claim.1 []).2) "Dean" (by decide) (by decide)

/-- Claim C10: a sheet with zero data rows parses successfully to the
empty record list before header validation runs, so a header error can
only arise when at least one data row exists. -/
theorem parseRows_empty_claim :
    (∀ rowsArr : List (List (String × CellVal)),
      rowsArr = [] → parseRows rowsArr = .ok []) ∧
    (∀ (rowsArr : List (List (String × CellVal))) (e : String),
      parseRows rowsArr = .error e → rowsArr ≠ []) := by
  constructor
  · intro rowsArr h
    subst h
    rfl
  · intro rowsArr e he h
    subst h
    simp [parseRows] at he

/-- Witness for C10: the empty sheet parses to the empty record list. -/
theorem parseRows_empty_claim_witness :
    parseRows [] = .ok [] :=
  parseRows_empty_claim.1 [] rfl

/-- Claim C9: a CSV field is quoted (with internal quotes doubled)
exactly when it contains a comma, a double quote or a newline, and is
emitted unescaped otherwise; consequently parsing the serialized export
with a standard CSV parser reproduces the header and every original
field value of every record exactly. -/
theorem downloadFilteredCsv_claim :
    (∀ v : String,
      ((v.data.contains ',' || v.data.contains '"' || v.data.contains '\n')
          = false → escapeField v = v) ∧
      ((v.data.contains ',' || v.data.contains '"' || v.data.contains '\n')
          = true →
        escapeField v = "\"" ++ String.mk (dupQuotes v.data) ++ "\"")) ∧
    (∀ rows : List DerivedRow,
      csvParse (downloadFilteredCsvText rows) =
        CSV_HEADERS :: rows.map csvValues) := by
  constructor
  · intro v
    constructor
    · intro h
      unfold escapeField
      rw [if_neg (by simpa using h)]
    · intro h
      unfold escapeField
      rw [if_pos h]
  · intro rows
    have hhdr : joinSep "," CSV_HEADERS =
        joinSep "," ((EXPECTED_HEADERS ++ ["AccreditationNormalized"]).map
          escapeField) := by decide
    have hmap : rows.map (fun r => joinSep "," ((csvValues r).map escapeField)) =
        (rows.map csvPair).map
          (fun q => joinSep "," ((q.1 ++ [q.2]).map escapeField)) := by
      rw [List.map_map]
      rfl
    unfold csvParse downloadFilteredCsvText
    rw [hhdr, hmap]
    have hlines := csvGo_lines (rows.map csvPair)
      (EXPECTED_HEADERS, "AccreditationNormalized") []
    rw [show ((EXPECTED_HEADERS, "AccreditationNormalized") ::
        rows.map csvPair).map
          (fun q => joinSep "," ((q.1 ++ [q.2]).map escapeField)) =
        joinSep "," ((EXPECTED_HEADERS ++ ["AccreditationNormalized"]).map
          escapeField) :: (rows.map csvPair).map
          (fun q => joinSep "," ((q.1 ++ [q.2]).map escapeField)) from rfl] at hlines
    rw [hlines]
    rw [List.map_cons, List.map_map]
    rfl

/-- Witness for C9: the escaping rule applied at concrete field values,
including the embedded-comma-and-quote example, hypotheses discharged by
evaluation. -/
theorem downloadFilteredCsv_claim_witness :
    escapeField "plain" = "plain" ∧
    escapeField "Bachelor, Arts \"Honors\"" =
      "\"" ++ String.mk (dupQuotes "Bachelor, Arts \"Honors\"".data) ++ "\"" :=
  ⟨(downloadFilteredCsv_claim.1 "plain").1 (by decide),
   (downloadFilteredCsv_claim.1 "Bachelor, Arts \"Honors\"").2 (by decide)⟩
